import Mathlib

/-!
Verification of the call_stats instrumentation decorator (src/call_stats.py).

The wrapper object state is embedded as a structure; durations (floating
point seconds in the source) are modelled as rationals.  The clock value
`t2 - t1` measured around an invocation, and the outcome of the underlying
callable, are nondeterministic inputs of an invocation and therefore appear
as parameters of the embedded call operation.  NumPy results that are NaN
(mean and standard deviation of an empty array) are modelled as `none` in
`Option Rat`.
-/

/-- Identity of an underlying Python callable: `key` stands for the object
identity used as the dictionary key in `call_stats._instances`, `name` for
its `__name__` (copied onto the wrapper by `update_wrapper`). -/
structure Func where
  key : Nat
  name : String
deriving DecidableEq, Repr

/-- State of one `call_stats` wrapper object: fields `_call_count`,
`_n_call_stat_hist` and `_call_hist` of the Python class, plus the
`__name__` installed by `update_wrapper`.  The history list keeps the
oldest duration first, like the deque. -/
structure call_stats where
  name : String
  call_count : Nat
  n_call_stat_hist : Nat
  call_hist : List Rat
deriving DecidableEq, Repr

/-- Appending to a `collections.deque` with `maxlen`: when the deque is
full the oldest (leftmost) entry is evicted. -/
def dequeAppend (maxlen : Nat) (hist : List Rat) (d : Rat) : List Rat :=
  let h := hist ++ [d]
  if maxlen < h.length then h.drop (h.length - maxlen) else h

/-- Embeds `call_stats.__init__(self, func)`: zero call count, capacity
1000, empty history, metadata copied from the wrapped callable.
Registration in `_instances` is modelled separately at the registry
level. -/
def call_stats.init (f : Func) : call_stats :=
  { name := f.name, call_count := 0, n_call_stat_hist := 1000, call_hist := [] }

/-- Embeds `call_stats.__call__`.  `resp` is the outcome of
`self._func(*args, **kwargs)` (a value, or a raised fault) and `δ` is the
measured duration `t2 - t1`.  When the underlying call raises, the
exception propagates before the append to `_call_hist` and the increment
of `_call_count` on lines 71 and 72 run, so the state is unchanged. -/
def call_stats.call {F V : Type} (s : call_stats) (resp : Except F V) (δ : Rat) :
    Except F V × call_stats :=
  match resp with
  | .error e => (.error e, s)
  | .ok v =>
      (.ok v,
        { s with
          call_hist := dequeAppend s.n_call_stat_hist s.call_hist δ
          call_count := s.call_count + 1 })

/-- Embeds the setter of the `n_call_stat_hist` property: stores the new
capacity and replaces `_call_hist` with a fresh empty deque of that
capacity. -/
def call_stats.set_n_call_stat_hist (s : call_stats) (m : Nat) : call_stats :=
  { s with n_call_stat_hist := m, call_hist := [] }

/-- Embeds `np.sum` on the history; the sum of an empty array is 0. -/
def np_sum (l : List Rat) : Rat := l.sum

/-- Embeds `np.mean`: the arithmetic mean, and NaN (modelled `none`) on an
empty array. -/
def np_mean (l : List Rat) : Option Rat :=
  if l.isEmpty then none else some (l.sum / l.length)

/-- Square of `np.std` (population standard deviation, ddof = 0): the mean
of the squared deviations, NaN (modelled `none`) on an empty array.
`np.std` itself is the square root of this value, which is irrational in
general; the square root is zero or NaN exactly when this value is, which
is all the claims need. -/
def np_std_sq (l : List Rat) : Option Rat :=
  match np_mean l with
  | none => none
  | some m => some ((l.map fun x => (x - m) ^ 2).sum / l.length)

/-- The list returned by the `call_stats` property getter:
`[self.__name__, self._call_count, np.sum(...), np.mean(...), np.std(...)]`,
with the std component carried as its square (see `np_std_sq`). -/
structure StatsSnapshot where
  name : String
  count : Nat
  total : Rat
  mean : Option Rat
  std_sq : Option Rat
deriving DecidableEq, Repr

/-- Embeds the read-only property getter `call_stats.call_stats`. -/
def call_stats.stats (s : call_stats) : StatsSnapshot :=
  { name := s.name
    count := s.call_count
    total := np_sum s.call_hist
    mean := np_mean s.call_hist
    std_sq := np_std_sq s.call_hist }

/-- Python exceptions the embedded code can raise itself. -/
inductive PyErr
  | attributeError (msg : String)
deriving DecidableEq, Repr

/-- Embeds the setter of the `call_stats` property, which unconditionally
raises `AttributeError` with the read-only message; the assignment never
succeeds and the state is never changed. -/
def call_stats.stats_set {V : Type} (_s : call_stats) (_v : V) : Except PyErr call_stats :=
  .error (.attributeError "The call_stats property is read only")

/-- One operation on a single wrapper: an invocation (carrying the outcome
of the underlying call and the measured duration) or an assignment to the
capacity property. -/
inductive WrapperOp
  | invoke (outcome : Except Unit Unit) (δ : Rat)
  | setCap (m : Nat)

/-- Whether an operation is an invocation. -/
def WrapperOp.isInvoke : WrapperOp → Bool
  | .invoke _ _ => true
  | .setCap _ => false

/-- Applies one operation to a wrapper state. -/
def applyOp (s : call_stats) (op : WrapperOp) : call_stats :=
  match op with
  | .invoke o δ => (call_stats.call s o δ).2
  | .setCap m => call_stats.set_n_call_stat_hist s m

/-- Runs a sequence of operations on a wrapper state. -/
def runOps (s : call_stats) (ops : List WrapperOp) : call_stats :=
  ops.foldl applyOp s

/-- Number of invocations in a sequence whose underlying call succeeded. -/
def countSuccesses (ops : List WrapperOp) : Nat :=
  ops.countP fun op =>
    match op with
    | .invoke (Except.ok _) _ => true
    | _ => false

/-- A line emitted by the reporting methods.  The zero-call branch prints
only the name; the normal branch prints the snapshot values (the numeric
formatting with two significant digits is presentation only and is not
modelled); `note` is a literal extra line. -/
inductive OutLine
  | zeroCalls (name : String)
  | statsLine (st : StatsSnapshot)
  | note (msg : String)
deriving DecidableEq, Repr

/-- Embeds `print_call_stats`: unpacks the `call_stats` property and picks
the zero-call line when the count is 0, the full line otherwise. -/
def call_stats.print_call_stats (s : call_stats) : OutLine :=
  let st := s.stats
  if st.count = 0 then .zeroCalls st.name else .statsLine st

/-- Ordering used by `print_all_call_stats`: pair `a` sorts no later than
pair `b` when its count component is at least that of `b` (descending by
count). -/
def countGE (a b : call_stats × Nat) : Prop := b.2 ≤ a.2

instance : DecidableRel countGE := fun a b => Nat.decLe b.2 a.2

instance : IsTotal (call_stats × Nat) countGE := ⟨fun a b => Nat.le_total b.2 a.2⟩

instance : IsTrans (call_stats × Nat) countGE := ⟨fun _ _ _ h1 h2 => le_trans h2 h1⟩

/-- The pairs `(deco, deco.call_stats[1])` gathered by
`print_all_call_stats`, in registry insertion order. -/
def stats_pairs (regVals : List call_stats) : List (call_stats × Nat) :=
  regVals.map fun deco => (deco, deco.stats.count)

/-- Embeds `stats.sort(key=lambda tup: tup[1], reverse=True)`: the Python
list sort is stable, and with `reverse=True` it orders descending by the
key while equal keys keep their relative order.  A stable sort by a total
preorder key is determined by that specification, so it is embedded as
insertion sort over `countGE`. -/
def sortStatsDesc (l : List (call_stats × Nat)) : List (call_stats × Nat) :=
  List.insertionSort countGE l

/-- Exact text of the truncation warning line. -/
def truncMsg : String := "NB: Some statistics are calculated using truncated call history"

/-- Embeds the static method `print_all_call_stats`: gathers the pairs in
registry order, sorts them descending by count, prints each wrapper in
that order, and afterwards emits the warning line when any wrapper has a
count exceeding its capacity. -/
def print_all_call_stats (regVals : List call_stats) : List OutLine :=
  let sorted := sortStatsDesc (stats_pairs regVals)
  (sorted.map fun p => p.1.print_call_stats)
    ++ (if sorted.any fun p => decide (p.1.n_call_stat_hist < p.2) then
          [OutLine.note truncMsg]
        else [])

/-- The process-wide registry `call_stats._instances`: a Python dict from
callable identity to wrapper state, modelled as an insertion-ordered
association list (Python dicts preserve insertion order, and assigning to
an existing key keeps its position). -/
abbrev Registry := List (Nat × call_stats)

/-- Assignment `d[k] = v` on a Python dict: replaces the value of an
existing entry in place, or appends a new entry at the end. -/
def dictSet (reg : Registry) (k : Nat) (v : call_stats) : Registry :=
  if reg.any fun p => p.1 == k then
    reg.map fun p => if p.1 == k then (k, v) else p
  else reg ++ [(k, v)]

/-- Wrapping a callable: construct the wrapper and register it under the
identity of the callable, as `__init__` does with
`call_stats._instances[func] = self`. -/
def wrap (reg : Registry) (f : Func) : Registry :=
  dictSet reg f.key (call_stats.init f)

/-- One registry-level operation: wrapping a callable, invoking the
wrapper registered under a key, or assigning that wrapper a new history
capacity. -/
inductive RegOp
  | wrapOp (f : Func)
  | invokeOp (k : Nat) (outcome : Except Unit Unit) (δ : Rat)
  | setCapOp (k : Nat) (m : Nat)

/-- Applies one registry-level operation. -/
def applyRegOp (reg : Registry) (op : RegOp) : Registry :=
  match op with
  | .wrapOp f => wrap reg f
  | .invokeOp k o δ =>
      reg.map fun p => if p.1 == k then (p.1, (call_stats.call p.2 o δ).2) else p
  | .setCapOp k m =>
      reg.map fun p => if p.1 == k then (p.1, call_stats.set_n_call_stat_hist p.2 m) else p

/-- Runs a sequence of registry-level operations. -/
def runRegOps (reg : Registry) (ops : List RegOp) : Registry :=
  ops.foldl applyRegOp reg

/-- Key membership in the registry. -/
def hasKey (reg : Registry) (k : Nat) : Bool :=
  reg.any fun p => p.1 == k

/-- The wrap operation as the spec describes it, for comparison with the
source `call_stats.init`: it additionally accepts an optional initial
capacity override, used in place of the default 1000 when supplied.  The
source constructor has no such parameter. -/
def wrap_with_override (f : Func) (capacity : Option Nat) : call_stats :=
  { name := f.name, call_count := 0, n_call_stat_hist := capacity.getD 1000
    call_hist := [] }

/-! ## Helper lemmas -/

/-- Appending to a deque whose length is within its capacity keeps the
length within the capacity. -/
theorem dequeAppend_length_le (m : Nat) (h : List Rat) (d : Rat)
    (hh : h.length ≤ m) : (dequeAppend m h d).length ≤ m := by
  simp only [dequeAppend]
  split
  · simp only [List.length_drop, List.length_append, List.length_singleton]
    omega
  · simp only [List.length_append, List.length_singleton] at *
    omega

/-- Appending to a deque grows its length by at most one. -/
theorem dequeAppend_length_le_succ (m : Nat) (h : List Rat) (d : Rat) :
    (dequeAppend m h d).length ≤ h.length + 1 := by
  simp only [dequeAppend]
  split
  · simp only [List.length_drop, List.length_append, List.length_singleton]
    omega
  · simp

/-- The two data-model invariants of a wrapper state: the history is
bounded by the capacity, and never longer than the lifetime call count. -/
def StateInv (s : call_stats) : Prop :=
  s.call_hist.length ≤ s.n_call_stat_hist ∧ s.call_hist.length ≤ s.call_count

/-- Every single operation preserves the data-model invariants. -/
theorem StateInv_applyOp (s : call_stats) (op : WrapperOp) (h : StateInv s) :
    StateInv (applyOp s op) := by
  obtain ⟨h1, h2⟩ := h
  cases op with
  | invoke o δ =>
    cases o with
    | error e => exact ⟨h1, h2⟩
    | ok v =>
      refine ⟨?_, ?_⟩
      · simpa [applyOp, call_stats.call] using
          dequeAppend_length_le s.n_call_stat_hist s.call_hist δ h1
      · have hgrow := dequeAppend_length_le_succ s.n_call_stat_hist s.call_hist δ
        simp only [applyOp, call_stats.call]
        omega
  | setCap m =>
    refine ⟨?_, ?_⟩ <;> simp [applyOp, call_stats.set_n_call_stat_hist]

/-- Every sequence of operations preserves the data-model invariants. -/
theorem StateInv_runOps (s : call_stats) (ops : List WrapperOp) (h : StateInv s) :
    StateInv (runOps s ops) := by
  induction ops generalizing s with
  | nil => exact h
  | cons op ops ih => exact ih _ (StateInv_applyOp s op h)

/-- A sequence of invocations leaves the capacity unchanged. -/
theorem runOps_invokes_cap (s : call_stats) (ops : List WrapperOp)
    (h : ∀ op ∈ ops, op.isInvoke = true) :
    (runOps s ops).n_call_stat_hist = s.n_call_stat_hist := by
  induction ops generalizing s with
  | nil => rfl
  | cons op ops ih =>
    have hop := h op (List.mem_cons_self op ops)
    have hrest : ∀ op2 ∈ ops, op2.isInvoke = true :=
      fun op2 hm => h op2 (List.mem_cons_of_mem _ hm)
    cases op with
    | invoke o δ =>
      have hstep : runOps s (WrapperOp.invoke o δ :: ops)
          = runOps (applyOp s (WrapperOp.invoke o δ)) ops := rfl
      rw [hstep, ih _ hrest]
      cases o with
      | ok v => rfl
      | error e => rfl
    | setCap m => simp [WrapperOp.isInvoke] at hop

/-! ## Claims -/

/-- C1 (counterexample): the claim says an invocation whose underlying
call raises still increments the call count; on the code the increment on
line 72 is skipped because the exception propagates from line 69, so after
a single faulting invocation of a fresh wrapper the count is 0, not 1. -/
theorem C1_counterexample :
    ((call_stats.init ⟨0, "f"⟩).call (Except.error () : Except Unit Unit) 1).2.call_count = 0
      ∧ (0 : Nat) ≠ 1 :=
  ⟨rfl, by decide⟩

/-- C1 (amended): after any sequence of operations, the call count has
grown by exactly the number of invocations whose underlying call
succeeded; faulting invocations and capacity assignments leave it
unchanged. -/
theorem C1_call_count_counts_successes (s : call_stats) (ops : List WrapperOp) :
    (runOps s ops).call_count = s.call_count + countSuccesses ops := by
  induction ops generalizing s with
  | nil => simp [runOps, countSuccesses]
  | cons op ops ih =>
    have hstep : runOps s (op :: ops) = runOps (applyOp s op) ops := rfl
    rw [hstep, ih]
    cases op with
    | invoke o δ =>
      cases o with
      | ok v =>
        have h1 : (applyOp s (WrapperOp.invoke (Except.ok v) δ)).call_count
            = s.call_count + 1 := rfl
        have h2 : countSuccesses (WrapperOp.invoke (Except.ok v) δ :: ops)
            = countSuccesses ops + 1 := by
          simp [countSuccesses, List.countP_cons]
        rw [h1, h2]
        omega
      | error e =>
        have h1 : (applyOp s (WrapperOp.invoke (Except.error e) δ)).call_count
            = s.call_count := rfl
        have h2 : countSuccesses (WrapperOp.invoke (Except.error e) δ :: ops)
            = countSuccesses ops := by
          simp [countSuccesses, List.countP_cons]
        rw [h1, h2]
    | setCap m =>
      have h1 : (applyOp s (WrapperOp.setCap m)).call_count = s.call_count := rfl
      have h2 : countSuccesses (WrapperOp.setCap m :: ops) = countSuccesses ops := by
        simp [countSuccesses, List.countP_cons]
      rw [h1, h2]

/-- C2: the wrapper returns exactly the value the underlying callable
returned, and propagates exactly the fault it raised, for every callable,
argument and wrapper state: wrapping never changes the outcome of a
call. -/
theorem C2_transparent {A F V : Type} (f : A → Except F V) (a : A)
    (s : call_stats) (δ : Rat) : (s.call (f a) δ).1 = f a := by
  cases hfa : f a <;> simp [call_stats.call]

/-- C3 (counterexample): the claim says the snapshot of an empty history
has total = mean = stdDev = 0; on the code the total is 0 but the mean and
standard deviation are NaN (np.mean and np.std of an empty array), not
0. -/
theorem C3_counterexample :
    ¬ ((call_stats.init ⟨0, "f"⟩).stats.total = 0
        ∧ (call_stats.init ⟨0, "f"⟩).stats.mean = some 0
        ∧ (call_stats.init ⟨0, "f"⟩).stats.std_sq = some 0) := by
  decide

/-- C3 (amended): reading the snapshot of a wrapper with empty history
never faults: it returns total 0 and the NaN sentinel (not 0) for mean and
standard deviation. -/
theorem C3_empty_history (s : call_stats) (h : s.call_hist = []) :
    s.stats.total = 0 ∧ s.stats.mean = none ∧ s.stats.std_sq = none := by
  simp [call_stats.stats, np_sum, np_mean, np_std_sq, h]

/-- C3 witness: the amended statement evaluated on a fresh wrapper. -/
theorem C3_empty_history_witness :
    (call_stats.init ⟨0, "f"⟩).stats.total = 0
      ∧ (call_stats.init ⟨0, "f"⟩).stats.mean = none
      ∧ (call_stats.init ⟨0, "f"⟩).stats.std_sq = none :=
  C3_empty_history (call_stats.init ⟨0, "f"⟩) rfl

/-- C4: assigning any value to the call_stats property, in any state,
raises the read-only AttributeError (the defined immutable-property
error) and never succeeds silently. -/
theorem C4_stats_read_only {V : Type} (s : call_stats) (v : V) :
    call_stats.stats_set s v
        = Except.error (PyErr.attributeError "The call_stats property is read only")
      ∧ ∀ s2 : call_stats, call_stats.stats_set s v ≠ Except.ok s2 :=
  ⟨rfl, fun s2 h => by simp [call_stats.stats_set] at h⟩

/-- C5: after every sequence of invocations and capacity assignments
starting from construction, the history length is at most the capacity
and at most the lifetime call count. -/
theorem C5_invariants (f : Func) (ops : List WrapperOp) :
    (runOps (call_stats.init f) ops).call_hist.length
        ≤ (runOps (call_stats.init f) ops).n_call_stat_hist
      ∧ (runOps (call_stats.init f) ops).call_hist.length
        ≤ (runOps (call_stats.init f) ops).call_count :=
  StateInv_runOps _ ops ⟨by simp [call_stats.init], by simp [call_stats.init]⟩

/-- C6: assigning capacity m resets the history to empty, installs m as
the capacity, leaves the call count unchanged, and bounds the history
length of any following sequence of invocations by m. -/
theorem C6_resize_resets (s : call_stats) (m : Nat) :
    (s.set_n_call_stat_hist m).call_hist = []
      ∧ (s.set_n_call_stat_hist m).n_call_stat_hist = m
      ∧ (s.set_n_call_stat_hist m).call_count = s.call_count
      ∧ ∀ ops : List WrapperOp, (∀ op ∈ ops, op.isInvoke = true) →
          (runOps (s.set_n_call_stat_hist m) ops).call_hist.length ≤ m := by
  refine ⟨rfl, rfl, rfl, fun ops h => ?_⟩
  have hInv := StateInv_runOps (s.set_n_call_stat_hist m) ops
    ⟨by simp [call_stats.set_n_call_stat_hist], by simp [call_stats.set_n_call_stat_hist]⟩
  have hcap := runOps_invokes_cap (s.set_n_call_stat_hist m) ops h
  obtain ⟨hl, _⟩ := hInv
  rw [hcap] at hl
  exact hl

/-- C6 witness: the resize statement evaluated at capacity 2 on a fresh
wrapper followed by one successful invocation. -/
theorem C6_resize_resets_witness :
    ((call_stats.init ⟨0, "f"⟩).set_n_call_stat_hist 2).call_hist = []
      ∧ ((call_stats.init ⟨0, "f"⟩).set_n_call_stat_hist 2).n_call_stat_hist = 2
      ∧ ((call_stats.init ⟨0, "f"⟩).set_n_call_stat_hist 2).call_count
          = (call_stats.init ⟨0, "f"⟩).call_count
      ∧ (runOps ((call_stats.init ⟨0, "f"⟩).set_n_call_stat_hist 2)
          [WrapperOp.invoke (Except.ok ()) 1]).call_hist.length ≤ 2 := by
  have h := C6_resize_resets (call_stats.init ⟨0, "f"⟩) 2
  refine ⟨h.1, h.2.1, h.2.2.1, h.2.2.2 [WrapperOp.invoke (Except.ok ()) 1] ?_⟩
  intro op hop
  simp only [List.mem_singleton] at hop
  subst hop
  rfl

/-- C10 (counterexample): the claim says the wrap operation accepts an
optional capacity override; the source constructor takes only the
callable, so a wrapper intended to start with capacity 5 still starts
with the default 1000, unlike the spec-described operation. -/
theorem C10_counterexample :
    (call_stats.init ⟨0, "f"⟩).n_call_stat_hist = 1000
      ∧ (wrap_with_override ⟨0, "f"⟩ (some 5)).n_call_stat_hist = 5
      ∧ (1000 : Nat) ≠ 5 := by
  decide

/-- C10 (amended): the wrap operation takes only the callable and always
installs the default capacity 1000 (agreeing with the spec-described
operation when no override is supplied); a different capacity is obtained
only afterwards through the capacity property setter. -/
theorem C10_no_override (f : Func) :
    (call_stats.init f).n_call_stat_hist = 1000
      ∧ call_stats.init f = wrap_with_override f none
      ∧ ∀ m : Nat, ((call_stats.init f).set_n_call_stat_hist m).n_call_stat_hist = m :=
  ⟨rfl, rfl, fun _ => rfl⟩

/-- Inserting a pair into a list keeps a filter unchanged apart from the
inserted pair itself, provided the filter never selects a pair the
insertion walks past (one that strictly precedes the inserted pair in the
ordering). -/
theorem filter_orderedInsert (q : call_stats × Nat → Bool) (a : call_stats × Nat)
    (l : List (call_stats × Nat))
    (hq : ∀ b ∈ l, ¬ countGE a b → q a = true → q b = false) :
    (List.orderedInsert countGE a l).filter q
      = if q a = true then a :: l.filter q else l.filter q := by
  induction l with
  | nil =>
    simp only [List.orderedInsert]
    cases hqa : q a <;> simp [List.filter_cons, hqa]
  | cons b l ih =>
    rw [List.orderedInsert]
    split
    · cases hqa : q a <;> simp [List.filter_cons, hqa]
    · rename_i hab
      have hq2 : ∀ c ∈ l, ¬ countGE a c → q a = true → q c = false :=
        fun c hc => hq c (List.mem_cons_of_mem _ hc)
      cases hqa : q a with
      | true =>
        have hqb : q b = false := hq b (List.mem_cons_self b l) hab hqa
        rw [List.filter_cons, List.filter_cons]
        simp only [hqb, if_pos rfl, ih hq2, hqa]
        simp
      | false =>
        rw [List.filter_cons, List.filter_cons]
        simp only [ih hq2, hqa]
        simp

/-- Stability of the embedded sort: a filter that never selects across a
strict ordering step is unchanged by sorting. -/
theorem filter_insertionSort (q : call_stats × Nat → Bool)
    (hq : ∀ a b : call_stats × Nat, ¬ countGE a b → q a = true → q b = false)
    (l : List (call_stats × Nat)) :
    (List.insertionSort countGE l).filter q = l.filter q := by
  induction l with
  | nil => rfl
  | cons a l ih =>
    rw [List.insertionSort]
    rw [filter_orderedInsert q a _ (fun b _ => hq a b)]
    cases hqa : q a <;> simp [List.filter_cons, hqa, ih]

/-- Equal-count pairs are never separated by a strict ordering step. -/
theorem count_filter_ok (c : Nat) (a b : call_stats × Nat)
    (hab : ¬ countGE a b) (ha : (a.2 == c) = true) : (b.2 == c) = false := by
  have h1 : a.2 = c := by simpa using ha
  have h2 : ¬ (b.2 ≤ a.2) := hab
  have h3 : b.2 ≠ c := by omega
  simpa using h3

/-- C7: the global report prints exactly the registered wrappers (one line
each) ordered by descending lifetime call count, where the printed order
is a permutation of registration order, sorted so that counts are
non-increasing, and the wrappers of any given count keep their relative
registration order (stability); the only other output is the optional
trailing warning. -/
theorem C7_global_ordering (regVals : List call_stats) :
    print_all_call_stats regVals
        = ((sortStatsDesc (stats_pairs regVals)).map fun p => p.1.print_call_stats)
          ++ (if (sortStatsDesc (stats_pairs regVals)).any
                  (fun p => decide (p.1.n_call_stat_hist < p.2)) = true then
                [OutLine.note truncMsg]
              else [])
      ∧ List.Perm (sortStatsDesc (stats_pairs regVals)) (stats_pairs regVals)
      ∧ (sortStatsDesc (stats_pairs regVals)).Pairwise countGE
      ∧ ∀ c : Nat,
          (sortStatsDesc (stats_pairs regVals)).filter (fun p => p.2 == c)
            = (stats_pairs regVals).filter (fun p => p.2 == c) := by
  refine ⟨rfl, List.perm_insertionSort countGE _, List.sorted_insertionSort countGE _, ?_⟩
  intro c
  exact filter_insertionSort _ (count_filter_ok c) _

/-- A per-wrapper line is never the warning line. -/
theorem print_call_stats_ne_note (s : call_stats) (msg : String) :
    s.print_call_stats ≠ OutLine.note msg := by
  simp only [call_stats.print_call_stats]
  split <;> simp

/-- C8: the global report emits the warning line exactly when some
registered wrapper has a lifetime call count exceeding its history
capacity, the per-wrapper lines are never the warning, and when emitted
the warning is the final line. -/
theorem C8_truncation_warning (regVals : List call_stats) :
    (OutLine.note truncMsg ∈ print_all_call_stats regVals
        ↔ ∃ d ∈ regVals, d.n_call_stat_hist < d.call_count)
      ∧ (∀ p ∈ sortStatsDesc (stats_pairs regVals),
          call_stats.print_call_stats p.1 ≠ OutLine.note truncMsg)
      ∧ ((∃ d ∈ regVals, d.n_call_stat_hist < d.call_count) →
          (print_all_call_stats regVals).getLast? = some (OutLine.note truncMsg)) := by
  have hperm := List.perm_insertionSort countGE (stats_pairs regVals)
  have hmem : ∀ p : call_stats × Nat,
      p ∈ sortStatsDesc (stats_pairs regVals) ↔ p ∈ stats_pairs regVals :=
    fun p => hperm.mem_iff
  have hcond : ((sortStatsDesc (stats_pairs regVals)).any
        (fun p => decide (p.1.n_call_stat_hist < p.2)) = true)
      ↔ ∃ d ∈ regVals, d.n_call_stat_hist < d.call_count := by
    rw [List.any_eq_true]
    constructor
    · rintro ⟨p, hp, hlt⟩
      rw [hmem] at hp
      simp only [stats_pairs, List.mem_map] at hp
      obtain ⟨d, hd, rfl⟩ := hp
      exact ⟨d, hd, by simpa [call_stats.stats] using hlt⟩
    · rintro ⟨d, hd, hlt⟩
      refine ⟨(d, d.stats.count), ?_, by simpa [call_stats.stats] using hlt⟩
      rw [hmem]
      simp only [stats_pairs, List.mem_map]
      exact ⟨d, hd, rfl⟩
  have hnotin : OutLine.note truncMsg
      ∉ (sortStatsDesc (stats_pairs regVals)).map fun p => p.1.print_call_stats := by
    intro hmem2
    rw [List.mem_map] at hmem2
    obtain ⟨p, _, hp⟩ := hmem2
    exact print_call_stats_ne_note p.1 truncMsg hp
  refine ⟨?_, fun p _ => print_call_stats_ne_note p.1 truncMsg, ?_⟩
  · rw [show print_all_call_stats regVals
        = ((sortStatsDesc (stats_pairs regVals)).map fun p => p.1.print_call_stats)
          ++ (if (sortStatsDesc (stats_pairs regVals)).any
                  (fun p => decide (p.1.n_call_stat_hist < p.2)) = true then
                [OutLine.note truncMsg]
              else []) from rfl]
    rw [List.mem_append]
    constructor
    · rintro (h | h)
      · exact absurd h hnotin
      · rw [← hcond]
        by_contra hc
        simp only [Bool.not_eq_true] at hc
        rw [hc] at h
        simp at h
    · intro h
      right
      rw [if_pos (hcond.mpr h)]
      simp
  · intro h
    rw [show print_all_call_stats regVals
        = ((sortStatsDesc (stats_pairs regVals)).map fun p => p.1.print_call_stats)
          ++ (if (sortStatsDesc (stats_pairs regVals)).any
                  (fun p => decide (p.1.n_call_stat_hist < p.2)) = true then
                [OutLine.note truncMsg]
              else []) from rfl]
    rw [if_pos (hcond.mpr h)]
    exact List.getLast?_concat _

/-- Mapping a key-preserving function over the registry does not change
key membership. -/
theorem hasKey_map_preserve (reg : Registry) (g : Nat × call_stats → Nat × call_stats)
    (hg : ∀ p, (g p).1 = p.1) (k : Nat) :
    hasKey (reg.map g) k = hasKey reg k := by
  simp only [hasKey, List.any_map]
  have hfun : ((fun p : Nat × call_stats => p.1 == k) ∘ g)
      = fun p : Nat × call_stats => p.1 == k := by
    funext p
    simp [Function.comp, hg p]
  rw [hfun]

/-- Every registry-level operation preserves key membership: dict
assignment either updates an entry in place or appends, and invocation and
capacity assignment only replace values. -/
theorem hasKey_applyRegOp (reg : Registry) (op : RegOp) (k : Nat)
    (h : hasKey reg k = true) : hasKey (applyRegOp reg op) k = true := by
  cases op with
  | wrapOp f =>
    simp only [applyRegOp, wrap, dictSet]
    split
    · rw [hasKey_map_preserve]
      · exact h
      · intro p
        by_cases hp : p.1 == f.key
        · have : p.1 = f.key := by simpa using hp
          simp [hp, this]
        · simp [hp]
    · simp only [hasKey, List.any_append]
      rw [show (reg.any fun p => p.1 == k) = true from h]
      rfl
  | invokeOp k2 o δ =>
    simp only [applyRegOp]
    rw [hasKey_map_preserve]
    · exact h
    · intro p
      by_cases hp : p.1 == k2 <;> simp [hp]
  | setCapOp k2 m =>
    simp only [applyRegOp]
    rw [hasKey_map_preserve]
    · exact h
    · intro p
      by_cases hp : p.1 == k2 <;> simp [hp]

/-- C9: once a callable is registered, some wrapper for it stays in the
registry under its key through any further sequence of wraps, invocations
and capacity assignments; wrapping the same callable again replaces the
stored wrapper but keeps the entry. -/
theorem C9_registry_entry_persists (reg : Registry) (ops : List RegOp) (k : Nat)
    (h : hasKey reg k = true) : hasKey (runRegOps reg ops) k = true := by
  induction ops generalizing reg with
  | nil => exact h
  | cons op ops ih => exact ih _ (hasKey_applyRegOp reg op k h)

/-- C9 witness: a callable registered under key 0 is still registered
after it is wrapped again and then invoked and resized. -/
theorem C9_registry_entry_persists_witness :
    hasKey (runRegOps (wrap [] ⟨0, "f"⟩)
      [RegOp.wrapOp ⟨0, "g"⟩, RegOp.invokeOp 0 (Except.ok ()) 1,
       RegOp.setCapOp 0 5]) 0 = true :=
  C9_registry_entry_persists (wrap [] ⟨0, "f"⟩) _ 0 rfl

/-- C8 witness: with one registered wrapper whose count 5 exceeds its
capacity 3, the report contains the warning line and it is the final
line. -/
theorem C8_truncation_warning_witness :
    (OutLine.note truncMsg ∈ print_all_call_stats [⟨"A", 5, 3, []⟩])
      ∧ (print_all_call_stats [⟨"A", 5, 3, []⟩]).getLast?
          = some (OutLine.note truncMsg) := by
  have h := C8_truncation_warning [⟨"A", 5, 3, []⟩]
  have hex : ∃ d ∈ [(⟨"A", 5, 3, []⟩ : call_stats)],
      d.n_call_stat_hist < d.call_count :=
    ⟨⟨"A", 5, 3, []⟩, List.mem_singleton.mpr rfl, by decide⟩
  exact ⟨h.1.mpr hex, h.2.2 hex⟩
